import Mathlib

/-!
Verification of the MapReduce word-count coordinator (driver.py / worker.py).

The scheduler (`TaskManager`), the greedy partitioner (`group_number_indexes`),
the HTTP endpoint dispatch logic (`get_task`, `shutdown_route`) and the worker's
reduce body (`reduce_task`) are shallowly embedded as pure Lean functions.
File-system and network effects are replaced by explicit arguments:
the input directory listing becomes a list of (filename, size) pairs,
the intermediate directory becomes a list of filenames plus a contents
function, and each HTTP handler becomes a function of the scheduler state.
Python dicts used as insertion-ordered sets/maps become lists with
insert-if-absent updates, so `len(dict)` is `List.length`.
-/

namespace MapReduce

/-! ### Partitioner: `group_number_indexes` (driver.py lines 41-68) -/

/-- Python `min(l)` for a nonempty list of Nats (`min([])` raises; callers with
`k = 0` and a nonempty item list are outside the claims' preconditions). -/
def list_min (l : List Nat) : Nat := l.min?.getD 0

/-- Python `l.index(min(l))`: first index holding the minimum value. -/
def index_of_min (l : List Nat) : Nat := List.indexOf (list_min l) l

/-- The distribution loop of `group_number_indexes`: for each `(index, num)` in
order, append `index` to the group with the smallest running sum (first such
group on ties) and add `num` to that sum.  `List.set`/`List.getD` model the
in-place `groups[i].append` / `group_sums[i] += num` of the Python loop. -/
def distribute (items : List (Nat × Nat)) (groups : List (List Nat))
    (group_sums : List Nat) : List (List Nat) × List Nat :=
  match items with
  | [] => (groups, group_sums)
  | (index, num) :: rest =>
      let min_group_index := index_of_min group_sums
      distribute rest
        (groups.set min_group_index ((groups.getD min_group_index []) ++ [index]))
        (group_sums.set min_group_index ((group_sums.getD min_group_index 0) + num))

/-- driver.py `group_number_indexes(nums, k)`: sort the numbers descending by
value keeping original indexes — Python's `sorted(..., key=lambda x: x[1],
reverse=True)` is a stable sort under the flipped key comparison, rendered
here by the (stable) insertion sort — then greedily distribute them over `k`
groups. -/
def group_number_indexes (nums : List Nat) (k : Nat) : List (List Nat) :=
  let indexed_nums := List.insertionSort (fun a b => b.2 ≤ a.2) nums.enum
  (distribute indexed_nums (List.replicate k []) (List.replicate k 0)).1

/-! ### Scheduler: `TaskManager` (driver.py lines 70-184) -/

/-- Python `s.endswith(suffix)`, computed on the character lists. -/
def ends_with (s suffix : String) : Bool :=
  suffix.data.isSuffixOf s.data

/-- A task dict: `{'type': 'map', 'task_id': i, 'files': [...]}` or
`{'type': 'reduce', 'task_id': i}`. -/
inductive Task where
  | map (task_id : Nat) (files : List String)
  | reduce (task_id : Nat)
  deriving DecidableEq, Repr, Inhabited

/-- The mutable state of `TaskManager`.  `completed_map_tasks` and
`completed_reduce_tasks` are Python dicts used as sets: we keep their keys as
lists in insertion order (each key occurs at most once because `complete_task`
inserts only absent keys). -/
structure TaskManager where
  N : Nat
  M : Nat
  map_tasks : List Task
  reduce_tasks : List Task
  completed_map_tasks : List Nat
  completed_reduce_tasks : List Nat
  deriving DecidableEq, Repr

/-- `TaskManager.__init__`: `N`/`M` from configuration, everything else empty. -/
def TaskManager.init (num_map_tasks num_reduce_tasks : Nat) : TaskManager :=
  { N := num_map_tasks
    M := num_reduce_tasks
    map_tasks := []
    reduce_tasks := []
    completed_map_tasks := []
    completed_reduce_tasks := [] }

/-- The `input_files` local of `create_tasks`: names in the input directory
listing ending in `.txt`. -/
def input_files (dir_listing : List (String × Nat)) : List String :=
  (dir_listing.filter (fun f => ends_with f.1 ".txt")).map Prod.fst

/-- The `file_sizes` local of `create_tasks`: the sizes of the same filtered
listing (the Python code runs the same `os.listdir` comprehension twice, once
for names and once for sizes). -/
def file_sizes (dir_listing : List (String × Nat)) : List Nat :=
  (dir_listing.filter (fun f => ends_with f.1 ".txt")).map Prod.snd

/-- `TaskManager.create_tasks`.  The input directory is passed as a listing of
(filename, size) pairs; the code clamps `N`, partitions by size, and appends
one map task per nonempty group using the `enumerate` index as `task_id`,
then `M` reduce tasks with ids `0..M-1`. -/
def create_tasks (tm : TaskManager) (dir_listing : List (String × Nat)) :
    TaskManager :=
  let N := min tm.N (input_files dir_listing).length
  let file_groups := group_number_indexes (file_sizes dir_listing) N
  let new_map_tasks := file_groups.enum.filterMap (fun p =>
    let task_files := p.2.map (fun i => (input_files dir_listing).getD i "")
    if task_files.isEmpty then none else some (Task.map p.1 task_files))
  let new_reduce_tasks := (List.range tm.M).map Task.reduce
  { tm with
    N := N
    map_tasks := tm.map_tasks ++ new_map_tasks
    reduce_tasks := tm.reduce_tasks ++ new_reduce_tasks }

/-- `TaskManager.get_next_task`: pop the front map task if any; otherwise pop
the front reduce task only when `completed_map_tasks` is nonempty (Python dict
truthiness) and its size equals `N`; otherwise `None`.  The Python guard
`... and self.reduce_tasks` together with the `pop(0)` is rendered as the
match on `reduce_tasks`. -/
def get_next_task (tm : TaskManager) : Option Task × TaskManager :=
  match tm.map_tasks with
  | t :: rest => (some t, { tm with map_tasks := rest })
  | [] =>
    match tm.reduce_tasks with
    | r :: rest =>
        if tm.completed_map_tasks ≠ [] ∧ tm.completed_map_tasks.length = tm.N then
          (some r, { tm with reduce_tasks := rest })
        else (none, tm)
    | [] => (none, tm)

/-- `TaskManager.complete_task`: insert `task_id` into the completed dict for
its kind if absent; unknown kinds fall through with no effect. -/
def complete_task (tm : TaskManager) (task_type : String) (task_id : Nat) :
    TaskManager :=
  if task_type = "map" then
    if task_id ∈ tm.completed_map_tasks then tm
    else { tm with completed_map_tasks := tm.completed_map_tasks ++ [task_id] }
  else if task_type = "reduce" then
    if task_id ∈ tm.completed_reduce_tasks then tm
    else { tm with completed_reduce_tasks := tm.completed_reduce_tasks ++ [task_id] }
  else tm

/-- `TaskManager.is_all_completed`. -/
def is_all_completed (tm : TaskManager) : Bool :=
  tm.completed_map_tasks.length == tm.N &&
    tm.completed_reduce_tasks.length == tm.M

/-! ### Coordinator endpoints (driver.py lines 186-244) -/

/-- Outcome of the `/get_task` endpoint: HTTP 200 with a task, HTTP 202
`{'status': 'wait', ...}`, or HTTP 204 `{'task': None}`. -/
inductive GetTaskResponse where
  | task (t : Task)
  | wait
  | no_task
  deriving DecidableEq, Repr

/-- The `/get_task` route handler: call `get_next_task`; if it yielded no task,
return the wait signal exactly when `completed_map_tasks` is nonempty (dict
truthiness) and its size is below `N`, else the empty 204 response. -/
def get_task (tm : TaskManager) : GetTaskResponse × TaskManager :=
  match get_next_task tm with
  | (some t, tm1) => (GetTaskResponse.task t, tm1)
  | (none, tm1) =>
      if tm1.completed_map_tasks ≠ [] ∧
          tm1.completed_map_tasks.length < tm1.N then
        (GetTaskResponse.wait, tm1)
      else (GetTaskResponse.no_task, tm1)

/-- Observable outcome of the `/shutdown` route: the JSON `status` string sent
back, and whether the werkzeug shutdown hook was actually invoked.  The hook
lookup `request.environ.get('werkzeug.server.shutdown')` is modelled by the
Boolean `hook_available`. -/
structure ShutdownResponse where
  status : String
  hook_invoked : Bool
  deriving DecidableEq, Repr

/-- The `/shutdown` route handler: invoke the hook when present, and return
`{'status': 'shutdown initiated'}` unconditionally. -/
def shutdown_route (hook_available : Bool) : ShutdownResponse :=
  { status := "shutdown initiated", hook_invoked := hook_available }

/-! ### Worker reduce side (worker.py lines 84-139) -/

/-- The regex `mr-\d+-(\d+)` as used with `re.match` in
`get_reduce_task_filenames`: anchored at the start of the filename, greedy
digit runs, trailing characters permitted (as with `re.match`); returns the
captured reduce-task id on a match. -/
def parse_intermediate_filename (s : String) : Option Nat :=
  match s.data with
  | 'm' :: 'r' :: '-' :: rest =>
      let d1 := rest.takeWhile Char.isDigit
      let rest1 := rest.dropWhile Char.isDigit
      if d1.isEmpty then none
      else
        match rest1 with
        | '-' :: rest2 =>
            let d2 := rest2.takeWhile Char.isDigit
            if d2.isEmpty then none
            else some (d2.foldl (fun acc ch => acc * 10 + (ch.toNat - '0'.toNat)) 0)
        | _ => none
  | _ => none

/-- One iteration of the `get_reduce_task_filenames` loop: file the name under
its reduce-task id, creating the key if absent (Python dict insertion order is
the list order here). -/
def dict_insert (d : List (Nat × List String)) (filename : String) :
    List (Nat × List String) :=
  match parse_intermediate_filename filename with
  | some rid =>
      if d.any (fun p => p.1 == rid) then
        d.map (fun p => if p.1 == rid then (p.1, p.2 ++ [filename]) else p)
      else d ++ [(rid, [filename])]
  | none => d

/-- worker.py `get_reduce_task_filenames`: map each reduce-task id to the
intermediate filenames targeting it, scanning the directory listing. -/
def get_reduce_task_filenames (dir_listing : List String) :
    List (Nat × List String) :=
  dir_listing.foldl dict_insert []

/-- Python `reduce_tasks_dict[reduce_task_id]`: `some` the stored list, or
`none` where the Python subscript raises `KeyError`. -/
def dict_lookup (d : List (Nat × List String)) (k : Nat) : Option (List String) :=
  (d.find? (fun p => p.1 == k)).map Prod.snd

/-- `sorted(Counter(words).items())`: each distinct word paired with its
occurrence count, ordered lexicographically by word. -/
def word_count_items (words : List String) : List (String × Nat) :=
  (List.insertionSort (fun a b => a ≤ b) words.dedup).map
    (fun w => (w, words.count w))

/-- worker.py `reduce_task`, with the filesystem abstracted: `dir_listing` is
the intermediate-directory listing and `contents f` the lines of file `f`
(`f.read().splitlines()`; the `os.path.exists` guard always holds for names
taken from the listing).  Returns the sorted `token count` pairs written to
`out-<id>`, or `Except.error` where the Python body raises `KeyError` on the
dict subscript — before the output file is opened. -/
def reduce_task (dir_listing : List String) (contents : String → List String)
    (reduce_task_id : Nat) : Except String (List (String × Nat)) :=
  match dict_lookup (get_reduce_task_filenames dir_listing) reduce_task_id with
  | none => Except.error "KeyError"
  | some filenames => Except.ok (word_count_items (filenames.flatMap contents))

/-! ### Interleavings of scheduler calls -/

/-- One serialized call against the scheduler: a `/get_task` poll (whose state
effect is `get_next_task`) or a `/task_completed` report with arbitrary
payload. -/
inductive Op where
  | get
  | complete (task_type : String) (task_id : Nat)

/-- State effect of one call. -/
def apply_op (tm : TaskManager) : Op → TaskManager
  | Op.get => (get_next_task tm).2
  | Op.complete ty id => complete_task tm ty id

/-- State after a sequence of calls. -/
def run_ops (tm : TaskManager) (ops : List Op) : TaskManager :=
  ops.foldl apply_op tm

/-- Does `get_next_task` hand out a reduce task in this state? -/
def yields_reduce (tm : TaskManager) : Bool :=
  match (get_next_task tm).1 with
  | some (Task.reduce _) => true
  | _ => false

/-- The pending-map queue holds only Map-kind tasks (true of every state the
driver can reach, since `create_tasks` only ever appends `'type': 'map'`
dicts to `self.map_tasks`). -/
def map_queue_only_map (tm : TaskManager) : Prop :=
  ∀ t ∈ tm.map_tasks, ∃ i fs, t = Task.map i fs

/-- A `/task_completed` payload that names a task the driver could actually
have dispatched: a map id below `n` or a reduce id below `m`. -/
def valid_op (n m : Nat) : Op → Prop
  | Op.get => True
  | Op.complete ty id => (ty = "map" → id < n) ∧ (ty = "reduce" → id < m)

instance (n m : Nat) (op : Op) : Decidable (valid_op n m op) := by
  cases op with
  | get => exact isTrue trivial
  | complete ty id => exact inferInstanceAs (Decidable (_ ∧ _))

/-- Exact full completion: the completed-map keys are a permutation of
`0..N-1` and the completed-reduce keys a permutation of `0..M-1`. -/
def completed_exactly (tm : TaskManager) : Prop :=
  tm.completed_map_tasks.Perm (List.range tm.N) ∧
  tm.completed_reduce_tasks.Perm (List.range tm.M)

/-- Completed keys are duplicate-free and within the dispatched id ranges. -/
def completed_within (tm : TaskManager) : Prop :=
  tm.completed_map_tasks.Nodup ∧ (∀ x ∈ tm.completed_map_tasks, x < tm.N) ∧
  tm.completed_reduce_tasks.Nodup ∧ (∀ x ∈ tm.completed_reduce_tasks, x < tm.M)

/-! ### Scheduler helper lemmas -/

lemma get_next_task_snd_N (tm : TaskManager) : (get_next_task tm).2.N = tm.N := by
  obtain ⟨N, M, mt, rt, cm, cr⟩ := tm
  cases mt with
  | cons t rest => rfl
  | nil =>
    cases rt with
    | nil => rfl
    | cons r rest => by_cases h : cm ≠ [] ∧ cm.length = N <;> simp [get_next_task, h]

lemma get_next_task_snd_M (tm : TaskManager) : (get_next_task tm).2.M = tm.M := by
  obtain ⟨N, M, mt, rt, cm, cr⟩ := tm
  cases mt with
  | cons t rest => rfl
  | nil =>
    cases rt with
    | nil => rfl
    | cons r rest => by_cases h : cm ≠ [] ∧ cm.length = N <;> simp [get_next_task, h]

lemma get_next_task_snd_completed_map (tm : TaskManager) :
    (get_next_task tm).2.completed_map_tasks = tm.completed_map_tasks := by
  obtain ⟨N, M, mt, rt, cm, cr⟩ := tm
  cases mt with
  | cons t rest => rfl
  | nil =>
    cases rt with
    | nil => rfl
    | cons r rest => by_cases h : cm ≠ [] ∧ cm.length = N <;> simp [get_next_task, h]

lemma get_next_task_snd_completed_reduce (tm : TaskManager) :
    (get_next_task tm).2.completed_reduce_tasks = tm.completed_reduce_tasks := by
  obtain ⟨N, M, mt, rt, cm, cr⟩ := tm
  cases mt with
  | cons t rest => rfl
  | nil =>
    cases rt with
    | nil => rfl
    | cons r rest => by_cases h : cm ≠ [] ∧ cm.length = N <;> simp [get_next_task, h]

lemma get_next_task_snd_map_tail (tm : TaskManager) (t : Task)
    (ht : t ∈ (get_next_task tm).2.map_tasks) : t ∈ tm.map_tasks := by
  obtain ⟨N, M, mt, rt, cm, cr⟩ := tm
  cases mt with
  | cons u rest => exact List.mem_cons_of_mem u ht
  | nil =>
    cases rt with
    | nil => exact ht
    | cons r rest =>
        by_cases h : cm ≠ [] ∧ cm.length = N <;> simpa [get_next_task, h] using ht

lemma get_next_task_snd_eq_of_none (tm : TaskManager)
    (h : (get_next_task tm).1 = none) : (get_next_task tm).2 = tm := by
  obtain ⟨N, M, mt, rt, cm, cr⟩ := tm
  cases mt with
  | cons t rest => simp [get_next_task] at h
  | nil =>
    cases rt with
    | nil => rfl
    | cons r rest =>
        by_cases hc : cm ≠ [] ∧ cm.length = N
        · simp [get_next_task, hc] at h
        · simp [get_next_task, hc]

lemma complete_task_N (tm : TaskManager) (ty : String) (id : Nat) :
    (complete_task tm ty id).N = tm.N := by
  unfold complete_task
  split <;> [skip; split] <;> (try split) <;> rfl

lemma complete_task_M (tm : TaskManager) (ty : String) (id : Nat) :
    (complete_task tm ty id).M = tm.M := by
  unfold complete_task
  split <;> [skip; split] <;> (try split) <;> rfl

lemma complete_task_map_tasks (tm : TaskManager) (ty : String) (id : Nat) :
    (complete_task tm ty id).map_tasks = tm.map_tasks := by
  unfold complete_task
  split <;> [skip; split] <;> (try split) <;> rfl

lemma apply_op_N (tm : TaskManager) (op : Op) : (apply_op tm op).N = tm.N := by
  cases op with
  | get => exact get_next_task_snd_N tm
  | complete ty id => exact complete_task_N tm ty id

lemma apply_op_M (tm : TaskManager) (op : Op) : (apply_op tm op).M = tm.M := by
  cases op with
  | get => exact get_next_task_snd_M tm
  | complete ty id => exact complete_task_M tm ty id

lemma apply_op_map_queue (tm : TaskManager) (op : Op)
    (h : map_queue_only_map tm) : map_queue_only_map (apply_op tm op) := by
  cases op with
  | get => exact fun t ht => h t (get_next_task_snd_map_tail tm t ht)
  | complete ty id =>
      intro t ht
      simp only [apply_op] at ht
      rw [complete_task_map_tasks] at ht
      exact h t ht

lemma run_ops_map_queue (ops : List Op) :
    ∀ tm : TaskManager, map_queue_only_map tm → map_queue_only_map (run_ops tm ops) := by
  induction ops with
  | nil => exact fun tm h => h
  | cons op rest ih => exact fun tm h => ih (apply_op tm op) (apply_op_map_queue tm op h)

lemma create_tasks_map_queue (tm : TaskManager) (dir_listing : List (String × Nat))
    (h : map_queue_only_map tm) : map_queue_only_map (create_tasks tm dir_listing) := by
  intro t ht
  unfold create_tasks at ht
  simp only [List.mem_append] at ht
  rcases ht with ht | ht
  · exact h t ht
  · obtain ⟨p, -, hp⟩ := List.mem_filterMap.mp ht
    split at hp
    · exact absurd hp (by simp)
    · exact ⟨p.1, _, (Option.some_injective _ hp).symm⟩

/-- The reduce-dispatch branch of `get_next_task` only fires with
`len(completed_map_tasks) == N`, and the map branch only hands out Map tasks
(on a well-formed map queue), so a Reduce task is never handed out while the
completed-map count is below `N`. -/
lemma yields_reduce_eq_false_of_lt (tm : TaskManager)
    (hwf : map_queue_only_map tm)
    (h : tm.completed_map_tasks.length < tm.N) : yields_reduce tm = false := by
  obtain ⟨N, M, mt, rt, cm, cr⟩ := tm
  cases hmt : mt with
  | cons t rest =>
      obtain ⟨i, fs, hi⟩ := hwf t (by rw [hmt]; exact List.mem_cons_self t rest)
      subst hmt
      simp [yields_reduce, get_next_task, hi]
  | nil =>
    subst hmt
    cases rt with
    | nil => rfl
    | cons r rest =>
        have hne : ¬(cm ≠ [] ∧ cm.length = N) := by
          rintro ⟨-, h2⟩
          simp only at h h2
          omega
        simp [yields_reduce, get_next_task, hne]

/-! ### Claim C1: the map→reduce barrier -/

/-- C1: in every state reachable from the scheduler state after `create_tasks`
by any interleaving of `get_next_task` and `complete_task` calls,
`get_next_task` never returns a Reduce task while the number of completed map
task ids is strictly less than `N`. -/
theorem get_next_task_barrier (n m : Nat) (dir_listing : List (String × Nat))
    (ops : List Op)
    (hlt : (run_ops (create_tasks (TaskManager.init n m) dir_listing) ops).completed_map_tasks.length
      < (run_ops (create_tasks (TaskManager.init n m) dir_listing) ops).N) :
    yields_reduce (run_ops (create_tasks (TaskManager.init n m) dir_listing) ops) = false :=
  yields_reduce_eq_false_of_lt _
    (run_ops_map_queue ops _
      (create_tasks_map_queue (TaskManager.init n m) dir_listing (by intro t ht; cases ht)))
    hlt

/-- Witness for C1 at a concrete reachable state: one `.txt` input unit,
`N = 1`, no completions yet. -/
theorem get_next_task_barrier_witness :
    yields_reduce (run_ops (create_tasks (TaskManager.init 1 1) [("a.txt", 5)]) []) = false :=
  get_next_task_barrier 1 1 [("a.txt", 5)] [] (by decide)

/-! ### Claim C2: Scenario A (zero input units) -/

/-- C2 counterexample: with 0 input units, `N_requested = 6`, `M = 4`, the very
first `get_next_task` call returns `None`, not Reduce task id 0 — the reduce
gate `self.completed_map_tasks and len(...) == self.N` is falsy on the empty
completion dict, so with `N = 0` reduce tasks are not immediately
dispatchable. -/
theorem scenario_a_first_poll_none :
    (get_next_task (create_tasks (TaskManager.init 6 4) [])).1 = none := rfl

/-- C2 amended: with 0 input units, `N_requested = 6`, `M = 4`, `create_tasks`
creates 0 Map tasks and 4 Reduce tasks and clamps `N` to 0, but the very first
`get_next_task` call returns `None` (the empty completion dict never satisfies
the truthiness conjunct of the reduce gate when `N = 0`). -/
theorem scenario_a_create_and_first_poll :
    (create_tasks (TaskManager.init 6 4) []).N = 0 ∧
    (create_tasks (TaskManager.init 6 4) []).map_tasks = [] ∧
    (create_tasks (TaskManager.init 6 4) []).reduce_tasks =
      [Task.reduce 0, Task.reduce 1, Task.reduce 2, Task.reduce 3] ∧
    (get_next_task (create_tasks (TaskManager.init 6 4) [])).1 = none :=
  ⟨rfl, rfl, rfl, rfl⟩

/-! ### Claim C4: idempotence of `complete_task` -/

/-- C4: for every scheduler state, kind in `{map, reduce}` and id, calling
`complete_task` twice with the same arguments yields the same state as calling
it once; in particular the completed-set sizes are unchanged by the second
call. -/
theorem complete_task_idempotent (tm : TaskManager) (ty : String) (id : Nat)
    (hty : ty = "map" ∨ ty = "reduce") :
    complete_task (complete_task tm ty id) ty id = complete_task tm ty id ∧
    (complete_task (complete_task tm ty id) ty id).completed_map_tasks.length
      = (complete_task tm ty id).completed_map_tasks.length ∧
    (complete_task (complete_task tm ty id) ty id).completed_reduce_tasks.length
      = (complete_task tm ty id).completed_reduce_tasks.length := by
  have heq : complete_task (complete_task tm ty id) ty id = complete_task tm ty id := by
    rcases hty with h1 | h1 <;> subst h1
    · by_cases h2 : id ∈ tm.completed_map_tasks <;> simp [complete_task, h2]
    · by_cases h2 : id ∈ tm.completed_reduce_tasks <;>
        simp [complete_task, h2, show ("reduce" : String) ≠ "map" by decide]
  exact ⟨heq, by rw [heq], by rw [heq]⟩

/-- Witness for C4 at a concrete state and arguments. -/
theorem complete_task_idempotent_witness :
    complete_task (complete_task (TaskManager.init 1 1) "map" 0) "map" 0
      = complete_task (TaskManager.init 1 1) "map" 0 ∧
    (complete_task (complete_task (TaskManager.init 1 1) "map" 0) "map" 0).completed_map_tasks.length
      = (complete_task (TaskManager.init 1 1) "map" 0).completed_map_tasks.length ∧
    (complete_task (complete_task (TaskManager.init 1 1) "map" 0) "map" 0).completed_reduce_tasks.length
      = (complete_task (TaskManager.init 1 1) "map" 0).completed_reduce_tasks.length :=
  complete_task_idempotent (TaskManager.init 1 1) "map" 0 (Or.inl rfl)

/-! ### Claim C5: the WaitSignal condition of the `/get_task` endpoint -/

/-- C5: whenever the pending map queue is empty and the `/get_task` endpoint
does not return a task, it returns the wait signal iff at least one but
strictly fewer than `N` map completions have been recorded; with zero map
completions it returns the empty 204 response, even if the pending reduce
queue is non-empty. -/
theorem get_task_wait_iff (tm : TaskManager)
    (hmap : tm.map_tasks = [])
    (hno : ∀ t, (get_task tm).1 ≠ GetTaskResponse.task t) :
    ((get_task tm).1 = GetTaskResponse.wait ↔
      1 ≤ tm.completed_map_tasks.length ∧ tm.completed_map_tasks.length < tm.N) ∧
    (tm.completed_map_tasks.length = 0 → (get_task tm).1 = GetTaskResponse.no_task) := by
  rcases hgn : get_next_task tm with ⟨o, tm1⟩
  cases o with
  | some t =>
      exact absurd (by simp [get_task, hgn]) (hno t)
  | none =>
      have htm1 : tm1 = tm := by
        have := get_next_task_snd_eq_of_none tm (by rw [hgn])
        rw [hgn] at this; exact this
      rw [htm1] at hgn
      have hgt : (get_task tm).1 =
          if tm.completed_map_tasks ≠ [] ∧ tm.completed_map_tasks.length < tm.N then
            GetTaskResponse.wait
          else GetTaskResponse.no_task := by
        simp only [get_task, hgn]
        split <;> rfl
      constructor
      · rw [hgt]
        by_cases hc : tm.completed_map_tasks ≠ [] ∧ tm.completed_map_tasks.length < tm.N
        · rw [if_pos hc]
          exact iff_of_true rfl ⟨List.length_pos.mpr hc.1, hc.2⟩
        · rw [if_neg hc]
          refine iff_of_false (by simp) ?_
          rintro ⟨h1, h2⟩
          exact hc ⟨List.length_pos.mp h1, h2⟩
      · intro hz
        rw [hgt, if_neg]
        rintro ⟨h1, -⟩
        exact absurd hz (Nat.pos_iff_ne_zero.mp (List.length_pos.mpr h1))

/-- Witness for C5: 0 input units, so the map queue is empty, the reduce queue
is non-empty, no completions are recorded, and the endpoint answers 204. -/
theorem get_task_wait_iff_witness :
    (((get_task (create_tasks (TaskManager.init 6 4) [])).1 = GetTaskResponse.wait ↔
      1 ≤ (create_tasks (TaskManager.init 6 4) []).completed_map_tasks.length ∧
        (create_tasks (TaskManager.init 6 4) []).completed_map_tasks.length
          < (create_tasks (TaskManager.init 6 4) []).N) ∧
    ((create_tasks (TaskManager.init 6 4) []).completed_map_tasks.length = 0 →
      (get_task (create_tasks (TaskManager.init 6 4) [])).1 = GetTaskResponse.no_task)) :=
  get_task_wait_iff (create_tasks (TaskManager.init 6 4) []) rfl
    (fun t h => by rw [show (get_task (create_tasks (TaskManager.init 6 4) [])).1
      = GetTaskResponse.no_task from rfl] at h; cases h)

/-! ### Partitioner lemmas -/

lemma list_min_mem {l : List Nat} (h : l ≠ []) : list_min l ∈ l := by
  unfold list_min
  cases hm : l.min? with
  | none =>
      rw [List.min?_eq_none_iff] at hm
      exact absurd hm h
  | some a =>
      simp only [Option.getD_some]
      exact (List.min?_eq_some_iff'.mp hm).1

lemma list_min_le {l : List Nat} {x : Nat} (hx : x ∈ l) : list_min l ≤ x := by
  unfold list_min
  cases hm : l.min? with
  | none =>
      rw [List.min?_eq_none_iff] at hm
      subst hm
      cases hx
  | some a =>
      simp only [Option.getD_some]
      exact (List.min?_eq_some_iff'.mp hm).2 x hx

lemma index_of_min_lt {l : List Nat} (h : l ≠ []) : index_of_min l < l.length :=
  List.indexOf_lt_length.mpr (list_min_mem h)

lemma getD_eq_getElem {α : Type} (l : List α) (i : Nat) (d : α) (hi : i < l.length) :
    l.getD i d = l[i] := by
  rw [List.getD_eq_getElem?_getD, List.getElem?_eq_getElem hi, Option.getD_some]

lemma flatten_set_append (groups : List (List Nat)) (i x : Nat)
    (hi : i < groups.length) :
    (groups.set i ((groups.getD i []) ++ [x])).flatten.Perm (x :: groups.flatten) := by
  have hset : groups.set i (groups.getD i [] ++ [x])
      = groups.take i ++ (groups[i] ++ [x]) :: groups.drop (i + 1) := by
    rw [List.set_eq_take_append_cons_drop, if_pos hi, getD_eq_getElem _ _ _ hi]
  have hsplit : groups = groups.take i ++ groups[i] :: groups.drop (i + 1) := by
    conv_lhs => rw [← List.take_append_drop i groups]
    rw [List.drop_eq_getElem_cons hi]
  rw [hset]
  conv_rhs => rw [hsplit]
  rw [List.perm_iff_count]
  intro a
  by_cases hax : a = x <;>
    simp only [List.flatten_append, List.flatten_cons, List.count_append,
      List.count_cons] <;>
    simp [hax] <;> omega

lemma distribute_flatten_perm :
    ∀ (items : List (Nat × Nat)) (groups : List (List Nat)) (sums : List Nat),
      groups.length = sums.length → sums ≠ [] →
      (distribute items groups sums).1.flatten.Perm
        (groups.flatten ++ items.map Prod.fst) := by
  intro items
  induction items with
  | nil => intro groups sums h hne; simp [distribute]
  | cons p rest ih =>
      intro groups sums h hne
      obtain ⟨index, num⟩ := p
      have hmgi : index_of_min sums < sums.length := index_of_min_lt hne
      have hmgi_g : index_of_min sums < groups.length := by rw [h]; exact hmgi
      have h1 : (groups.set (index_of_min sums) ((groups.getD (index_of_min sums) []) ++ [index])).length
          = (sums.set (index_of_min sums) ((sums.getD (index_of_min sums) 0) + num)).length := by
        simp [List.length_set, h]
      have hne1 : sums.set (index_of_min sums) ((sums.getD (index_of_min sums) 0) + num) ≠ [] := by
        intro hh
        have := congrArg List.length hh
        simp only [List.length_set, List.length_nil] at this
        exact hne (List.length_eq_zero.mp this)
      have hperm := ih _ _ h1 hne1
      simp only [distribute]
      refine hperm.trans ?_
      have h2 := (flatten_set_append groups (index_of_min sums) index hmgi_g).append_right
        (rest.map Prod.fst)
      exact h2.trans List.perm_middle.symm

lemma group_number_indexes_flatten_perm (nums : List Nat) {k : Nat} (hk : 1 ≤ k) :
    (group_number_indexes nums k).flatten.Perm (List.range nums.length) := by
  have hlen : (List.replicate k ([] : List Nat)).length
      = (List.replicate k (0 : Nat)).length := by simp
  have hne : List.replicate k (0 : Nat) ≠ [] := by
    intro hh
    have := congrArg List.length hh
    simp at this
    omega
  have h1 := distribute_flatten_perm
    (List.insertionSort (fun a b => b.2 ≤ a.2) nums.enum)
    (List.replicate k []) (List.replicate k 0) hlen hne
  refine h1.trans ?_
  rw [show (List.replicate k ([] : List Nat)).flatten = [] from by simp,
    List.nil_append]
  have h2 := (List.perm_insertionSort (fun (a b : Nat × Nat) => b.2 ≤ a.2) nums.enum).map Prod.fst
  rw [List.enum_map_fst] at h2
  exact h2

/-! ### The nonempty groups of the partitioner form a front segment -/

lemma getD_set_self {α : Type} (l : List α) (i : Nat) (v d : α) (hi : i < l.length) :
    (l.set i v).getD i d = v := by
  rw [List.getD_eq_getElem?_getD, List.getElem?_set, if_pos rfl, if_pos hi,
    Option.getD_some]

lemma getD_set_ne {α : Type} (l : List α) {i j : Nat} (v d : α) (hij : i ≠ j) :
    (l.set i v).getD j d = l.getD j d := by
  rw [List.getD_eq_getElem?_getD, List.getElem?_set, if_neg hij,
    ← List.getD_eq_getElem?_getD]

lemma indexOf_le_of_getElem :
    ∀ {l : List Nat} {a : Nat} {j : Nat} (hj : j < l.length), l[j] = a →
      List.indexOf a l ≤ j := by
  intro l
  induction l with
  | nil => intro a j hj; cases hj
  | cons b t ih =>
      intro a j hj hval
      cases j with
      | zero =>
          rw [List.getElem_cons_zero] at hval
          simp [List.indexOf_cons, hval]
      | succ j1 =>
          have hj1 : j1 < t.length := by simpa using hj
          have hval1 : t[j1] = a := by simpa using hval
          rw [List.indexOf_cons]
          cases hb : b == a with
          | true => simp
          | false =>
              simp only [cond_false]
              exact Nat.succ_le_succ (ih hj1 hval1)

/-- Invariant of the distribution loop: the first `c` groups are nonempty, and
every group from position `c` on is empty with a zero running sum.  Because
weights are non-negative and `index_of_min` picks the first group of minimum
sum, an item can never be placed beyond the first empty group, so this
invariant is preserved. -/
def front_filled (groups : List (List Nat)) (sums : List Nat) (c : Nat) : Prop :=
  c ≤ groups.length ∧
  (∀ i, i < c → groups.getD i [] ≠ []) ∧
  (∀ i, c ≤ i → i < groups.length → groups.getD i [] = [] ∧ sums.getD i 0 = 0)

lemma distribute_front_filled :
    ∀ (items : List (Nat × Nat)) (groups : List (List Nat)) (sums : List Nat) (c : Nat),
      groups.length = sums.length → front_filled groups sums c →
      ∃ c1, front_filled (distribute items groups sums).1
        (distribute items groups sums).2 c1 := by
  intro items
  induction items with
  | nil => exact fun groups sums c h hf => ⟨c, hf⟩
  | cons p rest ih =>
      intro groups sums c h hf
      obtain ⟨index, num⟩ := p
      by_cases hne : sums = []
      · subst hne
        have hg : groups = [] := List.length_eq_zero.mp (by simpa using h)
        subst hg
        have hstep : distribute ((index, num) :: rest) [] [] = distribute rest [] [] := rfl
        rw [hstep]
        exact ih [] [] 0 rfl ⟨Nat.le_refl 0, fun i hi => absurd hi (Nat.not_lt_zero i),
          fun i _ hi => absurd hi (Nat.not_lt_zero i)⟩
      · obtain ⟨hc_le, hfront, hsuffix⟩ := hf
        have hmgi_lt : index_of_min sums < sums.length := index_of_min_lt hne
        have hmgi_ltg : index_of_min sums < groups.length := by omega
        have hmgi_le_c : index_of_min sums ≤ c := by
          rcases Nat.lt_or_ge c sums.length with hcs | hcs
          · have hc0 : sums.getD c 0 = 0 :=
              (hsuffix c (Nat.le_refl c) (by omega)).2
            have hc0e : sums[c] = 0 := by rw [← getD_eq_getElem sums c 0 hcs]; exact hc0
            have hmem : (0 : Nat) ∈ sums := hc0e ▸ List.getElem_mem hcs
            have hmin0 : list_min sums = 0 := Nat.le_zero.mp (list_min_le hmem)
            have hidx : List.indexOf (0 : Nat) sums ≤ c := indexOf_le_of_getElem hcs hc0e
            calc index_of_min sums = List.indexOf (list_min sums) sums := rfl
              _ = List.indexOf 0 sums := by rw [hmin0]
              _ ≤ c := hidx
          · omega
        have hstep : distribute ((index, num) :: rest) groups sums
            = distribute rest
              (groups.set (index_of_min sums) ((groups.getD (index_of_min sums) []) ++ [index]))
              (sums.set (index_of_min sums) ((sums.getD (index_of_min sums) 0) + num)) := rfl
        rw [hstep]
        have hlen1 : (groups.set (index_of_min sums) ((groups.getD (index_of_min sums) []) ++ [index])).length
            = (sums.set (index_of_min sums) ((sums.getD (index_of_min sums) 0) + num)).length := by
          simp [List.length_set, h]
        rcases Nat.lt_or_ge (index_of_min sums) c with hlt | hge
        · refine ih _ _ c hlen1 ⟨by simpa [List.length_set] using hc_le, ?_, ?_⟩
          · intro i hi
            by_cases hieq : index_of_min sums = i
            · rw [← hieq, getD_set_self _ _ _ _ hmgi_ltg]
              simp
            · rw [getD_set_ne _ _ _ hieq]
              exact hfront i hi
          · intro i hci hi
            rw [List.length_set] at hi
            have hine : index_of_min sums ≠ i := by omega
            exact ⟨by rw [getD_set_ne _ _ _ hine]; exact (hsuffix i hci hi).1,
              by rw [getD_set_ne _ _ _ hine]; exact (hsuffix i hci hi).2⟩
        · have hmgic : index_of_min sums = c := Nat.le_antisymm hmgi_le_c hge
          refine ih _ _ (c + 1) hlen1 ⟨?_, ?_, ?_⟩
          · rw [List.length_set]
            omega
          · intro i hi
            rcases Nat.lt_or_ge i c with hic | hic
            · have hine : index_of_min sums ≠ i := by omega
              rw [getD_set_ne _ _ _ hine]
              exact hfront i hic
            · have hieq : i = c := by omega
              rw [hieq, ← hmgic, getD_set_self _ _ _ _ hmgi_ltg]
              simp
          · intro i hci hi
            rw [List.length_set] at hi
            have hine : index_of_min sums ≠ i := by omega
            exact ⟨by rw [getD_set_ne _ _ _ hine]; exact (hsuffix i (by omega) hi).1,
              by rw [getD_set_ne _ _ _ hine]; exact (hsuffix i (by omega) hi).2⟩

lemma distribute_fst_length :
    ∀ (items : List (Nat × Nat)) (groups : List (List Nat)) (sums : List Nat),
      (distribute items groups sums).1.length = groups.length := by
  intro items
  induction items with
  | nil => intro groups sums; rfl
  | cons p rest ih =>
      intro groups sums
      obtain ⟨index, num⟩ := p
      rw [show distribute ((index, num) :: rest) groups sums = distribute rest _ _ from rfl,
        ih, List.length_set]

lemma group_number_indexes_length (nums : List Nat) (k : Nat) :
    (group_number_indexes nums k).length = k := by
  unfold group_number_indexes
  rw [distribute_fst_length, List.length_replicate]

/-- The groups produced by `group_number_indexes` have all their nonempty
groups at the front: there is a cut `c` with groups `0..c-1` nonempty and all
later groups empty. -/
lemma group_number_indexes_front (nums : List Nat) (k : Nat) :
    ∃ c, c ≤ k ∧
      (∀ i, i < c → (group_number_indexes nums k).getD i [] ≠ []) ∧
      (∀ i, c ≤ i → i < k → (group_number_indexes nums k).getD i [] = []) := by
  have h0 : front_filled (List.replicate k []) (List.replicate k 0) 0 := by
    refine ⟨Nat.zero_le _, fun i hi => absurd hi (Nat.not_lt_zero i), fun i _ hi => ?_⟩
    rw [List.length_replicate] at hi
    constructor <;>
      rw [getD_eq_getElem _ _ _ (by rw [List.length_replicate]; exact hi),
        List.getElem_replicate]
  obtain ⟨c, hc_le, hfront, hsuffix⟩ := distribute_front_filled
    (List.insertionSort (fun a b => b.2 ≤ a.2) nums.enum)
    (List.replicate k []) (List.replicate k 0) 0 (by simp) h0
  rw [distribute_fst_length, List.length_replicate] at hc_le
  refine ⟨c, hc_le, fun i hi => hfront i hi, fun i hci hi => ?_⟩
  exact (hsuffix i hci (by rw [distribute_fst_length, List.length_replicate]; exact hi)).1

/-! ### Claim C7: partition completeness -/

/-- C7: for every list of (non-negative) weights and every `k ≥ 1` with
`k ≤ |nums|` or `nums = []`, the groups returned by `group_number_indexes`
contain every index of the input exactly once (their concatenation is a
permutation of `0..|nums|-1`), and an empty input yields zero non-empty
groups. -/
theorem group_number_indexes_complete (nums : List Nat) (k : Nat)
    (hk : 1 ≤ k) (hkp : k ≤ nums.length ∨ nums = []) :
    (group_number_indexes nums k).flatten.Perm (List.range nums.length) ∧
    (nums = [] → (group_number_indexes nums k).countP (fun g => !g.isEmpty) = 0) := by
  refine ⟨group_number_indexes_flatten_perm nums hk, ?_⟩
  intro h0
  subst h0
  have hrep : group_number_indexes [] k = List.replicate k [] := by
    unfold group_number_indexes
    simp [distribute]
  rw [hrep, List.countP_eq_zero]
  intro g hg
  rw [List.eq_of_mem_replicate hg]
  simp

/-- Witness for C7 on Scenario B's weights. -/
theorem group_number_indexes_complete_witness :
    (group_number_indexes [10, 20, 5] 3).flatten.Perm
      (List.range ([10, 20, 5] : List Nat).length) ∧
    (([10, 20, 5] : List Nat) = [] →
      (group_number_indexes [10, 20, 5] 3).countP (fun g => !g.isEmpty) = 0) :=
  group_number_indexes_complete [10, 20, 5] 3 (by decide) (Or.inl (by decide))

/-! ### Claim C8: the shape of `create_tasks` -/

lemma filterMap_eq_map_of_forall_some {α β : Type} (f : α → Option β) (g : α → β) :
    ∀ l : List α, (∀ x ∈ l, f x = some (g x)) → l.filterMap f = l.map g := by
  intro l
  induction l with
  | nil => intro _; rfl
  | cons a t ih =>
      intro h
      rw [List.filterMap_cons, h a (List.mem_cons_self a t), List.map_cons,
        ih (fun x hx => h x (List.mem_cons_of_mem a hx))]

lemma filterMap_eq_nil_of_forall_none {α β : Type} (f : α → Option β) :
    ∀ l : List α, (∀ x ∈ l, f x = none) → l.filterMap f = [] := by
  intro l
  induction l with
  | nil => intro _; rfl
  | cons a t ih =>
      intro h
      rw [List.filterMap_cons, h a (List.mem_cons_self a t)]
      exact ih (fun x hx => h x (List.mem_cons_of_mem a hx))

/-- C8: `create_tasks` clamps `N` to `min(N_requested, |inputUnits|)`, builds
exactly one Map task per non-empty partition group, with consecutive ids
`0..count-1` in partition order — the task with id `j` carries the names of
group `j`, which is non-empty — and builds `M` Reduce tasks with ids
`0..M-1`.  (The `enumerate` index is usable as a consecutive id because the
non-empty groups form a front segment of the partition.) -/
theorem create_tasks_shape (n m : Nat) (dir : List (String × Nat)) :
    (create_tasks (TaskManager.init n m) dir).N = min n (input_files dir).length ∧
    (create_tasks (TaskManager.init n m) dir).reduce_tasks
      = (List.range m).map Task.reduce ∧
    (create_tasks (TaskManager.init n m) dir).map_tasks.length
      = (group_number_indexes (file_sizes dir) (min n (input_files dir).length)).countP
          (fun g => !g.isEmpty) ∧
    ∀ j, j < (group_number_indexes (file_sizes dir)
        (min n (input_files dir).length)).countP (fun g => !g.isEmpty) →
      (create_tasks (TaskManager.init n m) dir).map_tasks.getD j default
        = Task.map j (((group_number_indexes (file_sizes dir)
            (min n (input_files dir).length)).getD j []).map
              (fun i => (input_files dir).getD i "")) ∧
      (group_number_indexes (file_sizes dir)
        (min n (input_files dir).length)).getD j [] ≠ [] := by
  obtain ⟨c, hc_le, hfront, hsuffix⟩ :=
    group_number_indexes_front (file_sizes dir) (min n (input_files dir).length)
  set gs := group_number_indexes (file_sizes dir) (min n (input_files dir).length)
    with hgs_def
  have hlen_gs : gs.length = min n (input_files dir).length :=
    group_number_indexes_length _ _
  have hc_len : c ≤ gs.length := by omega
  have htake_len : (gs.take c).length = c := by
    rw [List.length_take]; omega
  have htake : ∀ g ∈ gs.take c, g ≠ [] := by
    intro g hg
    obtain ⟨j, hj, hval⟩ := List.mem_iff_getElem.mp hg
    have hjc : j < c := by rw [htake_len] at hj; exact hj
    have hjg : j < gs.length := by omega
    have : (gs.take c)[j] = gs[j] := List.getElem_take gs
    rw [this] at hval
    rw [← hval, ← getD_eq_getElem gs j [] hjg]
    exact hfront j hjc
  have hdrop : ∀ g ∈ gs.drop c, g = [] := by
    intro g hg
    obtain ⟨j, hj, hval⟩ := List.mem_iff_getElem.mp hg
    have hcj : c + j < gs.length := by
      have hjlen := hj
      rw [List.length_drop] at hjlen
      omega
    have hval2 : gs[c + j] = g := by rw [← hval, List.getElem_drop]
    rw [← hval2, ← getD_eq_getElem gs (c + j) [] hcj]
    exact hsuffix (c + j) (Nat.le_add_right c j) (by omega)
  have hcount : gs.countP (fun g => !g.isEmpty) = c := by
    conv_lhs => rw [← List.take_append_drop c gs]
    rw [List.countP_append]
    have h1 : (gs.take c).countP (fun g => !g.isEmpty) = (gs.take c).length :=
      List.countP_eq_length.mpr (fun g hg => by
        simp only [Bool.not_eq_true', ← List.isEmpty_eq_true]
        simpa [List.isEmpty_eq_true] using htake g hg)
    have h2 : (gs.drop c).countP (fun g => !g.isEmpty) = 0 :=
      List.countP_eq_zero.mpr (fun g hg => by
        simp [List.isEmpty_eq_true, hdrop g hg])
    rw [h1, h2, htake_len]
    omega
  have hmap_tasks : (create_tasks (TaskManager.init n m) dir).map_tasks
      = (gs.take c).enum.map (fun p => Task.map p.1
          (p.2.map (fun i => (input_files dir).getD i ""))) := by
    have hbase : (create_tasks (TaskManager.init n m) dir).map_tasks
        = gs.enum.filterMap (fun p =>
            if (p.2.map (fun i => (input_files dir).getD i "")).isEmpty then none
            else some (Task.map p.1 (p.2.map (fun i => (input_files dir).getD i "")))) := by
      simp [create_tasks, TaskManager.init, hgs_def]
    rw [hbase]
    conv_lhs => rw [← List.take_append_drop c gs, List.enum_append,
      List.filterMap_append]
    rw [htake_len]
    have hfirst : (gs.take c).enum.filterMap (fun p =>
        if (p.2.map (fun i => (input_files dir).getD i "")).isEmpty then none
        else some (Task.map p.1 (p.2.map (fun i => (input_files dir).getD i ""))))
        = (gs.take c).enum.map (fun p => Task.map p.1
            (p.2.map (fun i => (input_files dir).getD i ""))) := by
      apply filterMap_eq_map_of_forall_some
      intro x hx
      have hx2 : x.2 ∈ gs.take c := by
        have := List.mem_map_of_mem Prod.snd hx
        rwa [List.enum_map_snd] at this
      have hne : x.2 ≠ [] := htake x.2 hx2
      have hemp : (x.2.map (fun i => (input_files dir).getD i "")).isEmpty = false := by
        rw [← Bool.not_eq_true, List.isEmpty_eq_true, List.map_eq_nil_iff]
        exact hne
      rw [hemp]
      simp
    have hsecond : (List.enumFrom c (gs.drop c)).filterMap (fun p =>
        if (p.2.map (fun i => (input_files dir).getD i "")).isEmpty then none
        else some (Task.map p.1 (p.2.map (fun i => (input_files dir).getD i ""))))
        = [] := by
      apply filterMap_eq_nil_of_forall_none
      intro x hx
      have hx2 : x.2 ∈ gs.drop c := by
        have := List.mem_map_of_mem Prod.snd hx
        rwa [List.enumFrom_map_snd] at this
      have hemp : (x.2.map (fun i => (input_files dir).getD i "")).isEmpty = true := by
        rw [List.isEmpty_eq_true, List.map_eq_nil_iff]
        exact hdrop x.2 hx2
      rw [hemp]
      simp
    rw [hfirst, hsecond, List.append_nil]
  refine ⟨rfl, by simp [create_tasks, TaskManager.init], ?_, ?_⟩
  · rw [hmap_tasks, hcount, List.length_map, List.enum_length, htake_len]
  · intro j hj
    rw [hcount] at hj
    have hjg : j < gs.length := by omega
    have hjtake : j < (gs.take c).length := by rw [htake_len]; exact hj
    have hjenum : j < (gs.take c).enum.length := by
      rw [List.enum_length]; exact hjtake
    have hjlen : j < ((gs.take c).enum.map (fun p => Task.map p.1
        (p.2.map (fun i => (input_files dir).getD i "")))).length := by
      rw [List.length_map, List.enum_length, htake_len]; exact hj
    have helem : ((gs.take c).enum.map (fun p => Task.map p.1
        (p.2.map (fun i => (input_files dir).getD i ""))))[j]
        = Task.map j ((gs[j]).map (fun i => (input_files dir).getD i "")) := by
      rw [List.getElem_map]
      have h1 : (gs.take c).enum[j] = (j, (gs.take c)[j]) :=
        List.getElem_enum (gs.take c) j hjenum
      have h2 : (gs.take c)[j] = gs[j] := List.getElem_take gs
      rw [h1, h2]
    constructor
    · rw [hmap_tasks, List.getD_eq_getElem?_getD, List.getElem?_eq_getElem hjlen,
        Option.getD_some, helem, getD_eq_getElem gs j [] hjg]
    · rw [getD_eq_getElem gs j [] hjg]
      have h2 : (gs.take c)[j] = gs[j] := List.getElem_take gs
      rw [← h2]
      exact htake _ (List.getElem_mem hjtake)

/-- Witness for C8 on a concrete directory listing: two `.txt` units of sizes
2 and 3 with `N_requested = 6`, so `N` clamps to 2 and both groups are
non-empty. -/
theorem create_tasks_shape_witness :
    (create_tasks (TaskManager.init 6 4) [("a.txt", 2), ("b.txt", 3)]).map_tasks.getD 0 default
      = Task.map 0 (((group_number_indexes (file_sizes [("a.txt", 2), ("b.txt", 3)])
          (min 6 (input_files [("a.txt", 2), ("b.txt", 3)]).length)).getD 0 []).map
            (fun i => (input_files [("a.txt", 2), ("b.txt", 3)]).getD i "")) ∧
    (group_number_indexes (file_sizes [("a.txt", 2), ("b.txt", 3)])
      (min 6 (input_files [("a.txt", 2), ("b.txt", 3)]).length)).getD 0 [] ≠ [] :=
  (create_tasks_shape 6 4 [("a.txt", 2), ("b.txt", 3)]).2.2.2 0 (by decide)

/-! ### Claims C3 and C6: completed-set bounds and stability of completion -/

lemma length_le_of_nodup_bounded (l : List Nat) (n : Nat)
    (hnd : l.Nodup) (hb : ∀ x ∈ l, x < n) : l.length ≤ n := by
  have hsub : l.toFinset ⊆ Finset.range n := by
    intro x hx
    exact Finset.mem_range.mpr (hb x (List.mem_toFinset.mp hx))
  calc l.length = l.toFinset.card := (List.toFinset_card_of_nodup hnd).symm
    _ ≤ (Finset.range n).card := Finset.card_le_card hsub
    _ = n := Finset.card_range n

lemma complete_task_completed_within (tm : TaskManager) (ty : String) (id : Nat)
    (h : completed_within tm)
    (hv : (ty = "map" → id < tm.N) ∧ (ty = "reduce" → id < tm.M)) :
    completed_within (complete_task tm ty id) := by
  obtain ⟨hnd_m, hb_m, hnd_r, hb_r⟩ := h
  by_cases h1 : ty = "map"
  · subst h1
    by_cases h2 : id ∈ tm.completed_map_tasks
    · simpa [complete_task, h2, completed_within] using ⟨hnd_m, hb_m, hnd_r, hb_r⟩
    · refine ⟨?_, ?_, ?_, ?_⟩ <;> simp only [complete_task, h2, if_true, if_neg, reduceIte]
      · exact hnd_m.append (List.nodup_singleton id) (List.disjoint_singleton.mpr h2)
      · intro x hx
        rcases List.mem_append.mp hx with hx | hx
        · exact hb_m x hx
        · rw [List.mem_singleton.mp hx]; exact hv.1 rfl
      · exact hnd_r
      · exact hb_r
  · by_cases h3 : ty = "reduce"
    · subst h3
      by_cases h2 : id ∈ tm.completed_reduce_tasks
      · simpa [complete_task, h1, h2, completed_within] using ⟨hnd_m, hb_m, hnd_r, hb_r⟩
      · refine ⟨?_, ?_, ?_, ?_⟩ <;>
          simp only [complete_task, h1, h2, if_true, if_neg, reduceIte]
        · exact hnd_m
        · exact hb_m
        · exact hnd_r.append (List.nodup_singleton id) (List.disjoint_singleton.mpr h2)
        · intro x hx
          rcases List.mem_append.mp hx with hx | hx
          · exact hb_r x hx
          · rw [List.mem_singleton.mp hx]; exact hv.2 rfl
    · simpa [complete_task, h1, h3, completed_within] using ⟨hnd_m, hb_m, hnd_r, hb_r⟩

lemma apply_op_completed_within (tm : TaskManager) (op : Op)
    (h : completed_within tm) (hv : valid_op tm.N tm.M op) :
    completed_within (apply_op tm op) := by
  cases op with
  | get =>
      unfold completed_within at *
      rw [show apply_op tm Op.get = (get_next_task tm).2 from rfl,
        get_next_task_snd_completed_map, get_next_task_snd_completed_reduce,
        get_next_task_snd_N, get_next_task_snd_M]
      exact h
  | complete ty id => exact complete_task_completed_within tm ty id h hv

lemma run_ops_completed_within (ops : List Op) :
    ∀ tm : TaskManager, completed_within tm →
      (∀ op ∈ ops, valid_op tm.N tm.M op) → completed_within (run_ops tm ops) := by
  induction ops with
  | nil => exact fun tm h _ => h
  | cons op rest ih =>
      intro tm h hv
      have h1 := apply_op_completed_within tm op h (hv op (List.mem_cons_self op rest))
      have hv1 : ∀ o ∈ rest, valid_op (apply_op tm op).N (apply_op tm op).M o := by
        rw [apply_op_N, apply_op_M]
        exact fun o ho => hv o (List.mem_cons_of_mem op ho)
      exact ih (apply_op tm op) h1 hv1

/-- C3 counterexample: with one `.txt` input unit (`N = 1`), completion reports
for map ids 0 and 1 — the latter never dispatched, but `complete_task` accepts
unknown ids silently — leave a completed-map set of size 2 > N = 1. -/
theorem completed_map_size_exceeds_bound :
    (run_ops (create_tasks (TaskManager.init 1 1) [("a.txt", 5)])
        [Op.complete "map" 0, Op.complete "map" 1]).completed_map_tasks.length = 2 ∧
    (run_ops (create_tasks (TaskManager.init 1 1) [("a.txt", 5)])
        [Op.complete "map" 0, Op.complete "map" 1]).N = 1 :=
  ⟨rfl, rfl⟩

/-- C3 amended: in every state reachable from the post-`create_tasks` state by
`get_next_task` calls and `complete_task` calls restricted to dispatched-range
ids (map ids `< N`, reduce ids `< M`), the completed-map set has size at most
`N` and the completed-reduce set size at most `M`. -/
theorem completed_sizes_bounded (n m : Nat) (dir_listing : List (String × Nat))
    (ops : List Op)
    (hv : ∀ op ∈ ops, valid_op (create_tasks (TaskManager.init n m) dir_listing).N
      (create_tasks (TaskManager.init n m) dir_listing).M op) :
    (run_ops (create_tasks (TaskManager.init n m) dir_listing) ops).completed_map_tasks.length
      ≤ (run_ops (create_tasks (TaskManager.init n m) dir_listing) ops).N ∧
    (run_ops (create_tasks (TaskManager.init n m) dir_listing) ops).completed_reduce_tasks.length
      ≤ (run_ops (create_tasks (TaskManager.init n m) dir_listing) ops).M := by
  have h0 : completed_within (create_tasks (TaskManager.init n m) dir_listing) :=
    ⟨List.nodup_nil, fun x hx => absurd hx (List.not_mem_nil x),
     List.nodup_nil, fun x hx => absurd hx (List.not_mem_nil x)⟩
  obtain ⟨hnd_m, hb_m, hnd_r, hb_r⟩ :=
    run_ops_completed_within ops (create_tasks (TaskManager.init n m) dir_listing) h0 hv
  exact ⟨length_le_of_nodup_bounded _ _ hnd_m hb_m,
    length_le_of_nodup_bounded _ _ hnd_r hb_r⟩

/-- Witness for C3 (amended) on a concrete valid call sequence. -/
theorem completed_sizes_bounded_witness :
    (run_ops (create_tasks (TaskManager.init 1 1) [("a.txt", 5)])
        [Op.complete "map" 0, Op.get]).completed_map_tasks.length
      ≤ (run_ops (create_tasks (TaskManager.init 1 1) [("a.txt", 5)])
        [Op.complete "map" 0, Op.get]).N ∧
    (run_ops (create_tasks (TaskManager.init 1 1) [("a.txt", 5)])
        [Op.complete "map" 0, Op.get]).completed_reduce_tasks.length
      ≤ (run_ops (create_tasks (TaskManager.init 1 1) [("a.txt", 5)])
        [Op.complete "map" 0, Op.get]).M :=
  completed_sizes_bounded 1 1 [("a.txt", 5)] [Op.complete "map" 0, Op.get] (by decide)

lemma completed_exactly_is_all (tm : TaskManager) (h : completed_exactly tm) :
    is_all_completed tm = true := by
  obtain ⟨h1, h2⟩ := h
  simp [is_all_completed, h1.length_eq, h2.length_eq, List.length_range]

lemma complete_task_completed_exactly (tm : TaskManager) (ty : String) (id : Nat)
    (h : completed_exactly tm)
    (hv : (ty = "map" → id < tm.N) ∧ (ty = "reduce" → id < tm.M)) :
    completed_exactly (complete_task tm ty id) := by
  by_cases h1 : ty = "map"
  · subst h1
    have hmem : id ∈ tm.completed_map_tasks :=
      h.1.mem_iff.mpr (List.mem_range.mpr (hv.1 rfl))
    simpa [complete_task, hmem] using h
  · by_cases h3 : ty = "reduce"
    · subst h3
      have hmem : id ∈ tm.completed_reduce_tasks :=
        h.2.mem_iff.mpr (List.mem_range.mpr (hv.2 rfl))
      simpa [complete_task, h1, hmem] using h
    · simpa [complete_task, h1, h3] using h

lemma apply_op_completed_exactly (tm : TaskManager) (op : Op)
    (h : completed_exactly tm) (hv : valid_op tm.N tm.M op) :
    completed_exactly (apply_op tm op) := by
  cases op with
  | get =>
      unfold completed_exactly at *
      rw [show apply_op tm Op.get = (get_next_task tm).2 from rfl,
        get_next_task_snd_completed_map, get_next_task_snd_completed_reduce,
        get_next_task_snd_N, get_next_task_snd_M]
      exact h
  | complete ty id => exact complete_task_completed_exactly tm ty id h hv

lemma run_ops_completed_exactly (ops : List Op) :
    ∀ tm : TaskManager, completed_exactly tm →
      (∀ op ∈ ops, valid_op tm.N tm.M op) → completed_exactly (run_ops tm ops) := by
  induction ops with
  | nil => exact fun tm h _ => h
  | cons op rest ih =>
      intro tm h hv
      have h1 := apply_op_completed_exactly tm op h (hv op (List.mem_cons_self op rest))
      have hv1 : ∀ o ∈ rest, valid_op (apply_op tm op).N (apply_op tm op).M o := by
        rw [apply_op_N, apply_op_M]
        exact fun o ho => hv o (List.mem_cons_of_mem op ho)
      exact ih (apply_op tm op) h1 hv1

/-- C6 counterexample: with `N = M = 1`, completing map id 0 and reduce id 0
makes `is_all_completed` true, but one further `complete_task('map', 1)` with a
never-dispatched id flips it back to false — it does not remain true under
arbitrary-argument CompleteTask calls. -/
theorem is_all_completed_not_stable :
    is_all_completed (run_ops (create_tasks (TaskManager.init 1 1) [("a.txt", 5)])
      [Op.complete "map" 0, Op.complete "reduce" 0]) = true ∧
    is_all_completed (run_ops (create_tasks (TaskManager.init 1 1) [("a.txt", 5)])
      [Op.complete "map" 0, Op.complete "reduce" 0, Op.complete "map" 1]) = false :=
  ⟨rfl, rfl⟩

/-- C6 amended: once the completed-map ids are exactly `0..N-1` and the
completed-reduce ids exactly `0..M-1`, `is_all_completed` returns true, and it
remains true after every further sequence of `get_next_task` calls and
`complete_task` calls whose ids stay in the dispatched ranges (map ids `< N`,
reduce ids `< M`); a report with a never-dispatched id can make it false. -/
theorem is_all_completed_stable (tm : TaskManager) (h : completed_exactly tm)
    (ops : List Op) (hv : ∀ op ∈ ops, valid_op tm.N tm.M op) :
    is_all_completed tm = true ∧ is_all_completed (run_ops tm ops) = true :=
  ⟨completed_exactly_is_all tm h,
   completed_exactly_is_all _ (run_ops_completed_exactly ops tm h hv)⟩

/-- Witness for C6 (amended) at a fully completed concrete state, followed by
a poll and a duplicate completion report. -/
theorem is_all_completed_stable_witness :
    is_all_completed (run_ops (create_tasks (TaskManager.init 1 1) [("a.txt", 5)])
      [Op.complete "map" 0, Op.complete "reduce" 0]) = true ∧
    is_all_completed (run_ops (run_ops (create_tasks (TaskManager.init 1 1) [("a.txt", 5)])
      [Op.complete "map" 0, Op.complete "reduce" 0])
      [Op.get, Op.complete "map" 0]) = true :=
  is_all_completed_stable
    (run_ops (create_tasks (TaskManager.init 1 1) [("a.txt", 5)])
      [Op.complete "map" 0, Op.complete "reduce" 0])
    (by constructor <;> decide)
    [Op.get, Op.complete "map" 0] (by decide)

/-! ### Claim C9: the `/shutdown` route's response -/

/-- C9: contrary to the design requirement, the `/shutdown` route returns the
same `{'status': 'shutdown initiated'}` body whether or not the werkzeug
shutdown hook is available; with the hook unavailable it reports the same
success response while not invoking any shutdown. -/
theorem shutdown_route_same_response :
    (shutdown_route false).status = (shutdown_route true).status ∧
    (shutdown_route false).status = "shutdown initiated" ∧
    (shutdown_route false).hook_invoked = false :=
  ⟨rfl, rfl, rfl⟩

/-! ### Claim C10: reduce task on a bucket with no intermediate file -/

lemma dict_insert_keys (d : List (Nat × List String)) (filename : String)
    (p : Nat × List String) (hp : p ∈ dict_insert d filename) :
    (∃ q ∈ d, q.1 = p.1) ∨ parse_intermediate_filename filename = some p.1 := by
  unfold dict_insert at hp
  split at hp
  · next rid heq =>
      split at hp
      · obtain ⟨q0, hq0_mem, hq0_eq⟩ := List.mem_map.mp hp
        have hq01 : q0.1 = p.1 := by
          by_cases hc : (q0.1 == rid) = true
          · rw [if_pos hc] at hq0_eq
            rw [← hq0_eq]
          · rw [if_neg hc] at hq0_eq
            rw [hq0_eq]
        exact Or.inl ⟨q0, hq0_mem, hq01⟩
      · rcases List.mem_append.mp hp with h1 | h1
        · exact Or.inl ⟨p, h1, rfl⟩
        · have hpe : p = (rid, [filename]) := List.mem_singleton.mp h1
          refine Or.inr ?_
          rw [heq, hpe]
  · next heq => exact Or.inl ⟨p, hp, rfl⟩

lemma foldl_dict_insert_keys :
    ∀ (listing : List String) (d : List (Nat × List String)) (p : Nat × List String),
      p ∈ listing.foldl dict_insert d →
      (∃ q ∈ d, q.1 = p.1) ∨ ∃ f ∈ listing, parse_intermediate_filename f = some p.1 := by
  intro listing
  induction listing with
  | nil => exact fun d p hp => Or.inl ⟨p, hp, rfl⟩
  | cons f fs ih =>
      intro d p hp
      rw [List.foldl_cons] at hp
      rcases ih (dict_insert d f) p hp with ⟨q, hq_mem, hq_eq⟩ | ⟨f0, hf0, hp0⟩
      · rcases dict_insert_keys d f q hq_mem with ⟨q0, hq0_mem, hq0_eq⟩ | hparse
        · exact Or.inl ⟨q0, hq0_mem, hq0_eq.trans hq_eq⟩
        · exact Or.inr ⟨f, List.mem_cons_self f fs, by rw [hparse, hq_eq]⟩
      · exact Or.inr ⟨f0, List.mem_cons_of_mem f hf0, hp0⟩

/-- C10: when no intermediate file in the directory names a given reduce
bucket id (no token was ever hashed there by any map task), the reduce body
fails with a `KeyError` on the dict lookup, before any output is written —
it does not write an empty output file for that reduce task id. -/
theorem reduce_task_missing_bucket (dir_listing : List String)
    (contents : String → List String) (rid : Nat)
    (h : ∀ f ∈ dir_listing, parse_intermediate_filename f ≠ some rid) :
    reduce_task dir_listing contents rid = Except.error "KeyError" := by
  unfold reduce_task
  cases hfind : dict_lookup (get_reduce_task_filenames dir_listing) rid with
  | none => rfl
  | some filenames =>
      exfalso
      unfold dict_lookup at hfind
      cases hf2 : (get_reduce_task_filenames dir_listing).find? (fun p => p.1 == rid) with
      | none => rw [hf2] at hfind; cases hfind
      | some p =>
          have hp_mem : p ∈ get_reduce_task_filenames dir_listing :=
            List.mem_of_find?_eq_some hf2
          have hp_key : p.1 = rid := by
            have := List.find?_some hf2
            simpa using this
          rcases foldl_dict_insert_keys dir_listing [] p hp_mem with
            ⟨q, hq, -⟩ | ⟨f, hf_mem, hf_parse⟩
          · cases hq
          · exact h f hf_mem (by rw [hf_parse, hp_key])

/-- An empty-file-contents function for the concrete witness. -/
def no_contents : String → List String := fun _ => []

/-- Witness for C10: the only intermediate file targets bucket 1, and the
reduce task for bucket 0 fails with `KeyError`. -/
theorem reduce_task_missing_bucket_witness :
    reduce_task ["mr-0-1"] no_contents 0 = Except.error "KeyError" :=
  reduce_task_missing_bucket ["mr-0-1"] no_contents 0 (by decide)

end MapReduce
